import Mathlib

/-!
# Verification of `archive_session.py` (scrape-zones)

A shallow embedding of the core logic of `src/archive_session.py` — the
cookie loader, link extractors, date parsing/filtering, the two-level zone
crawl, the downloader's filename derivation and collision handling, the zip
extractor, and the `main` prelude — together with theorems settling the
specification claims about them.

Modelling conventions:
* Python strings are Lean `String`s; character classes (`\w`, `\d`,
  whitespace) are modelled over ASCII, which covers every input the claims
  and counterexamples exercise.
* Network and filesystem effects are passed explicitly: HTTP fetching is an
  oracle `String → Except RequestError HResponse`, per-file outcomes are
  oracle functions, and the download directory is a list of existing
  filenames threaded through as state.
* HTML bodies are represented post-parse as a tree of nodes (`Node`);
  `BeautifulSoup(..., "html.parser")` itself is third-party and not
  re-verified here.
* `urllib.parse.urljoin` / `urlparse` are modelled for http(s) URLs without
  dot-segment resolution, the shapes this crawler encounters.
-/

namespace ScrapeZones

/-! ## Python string primitives -/

/-- ASCII decimal digit test (model of `\d` restricted to ASCII). -/
def isDig (c : Char) : Bool := '0' ≤ c && c ≤ '9'

/-- Numeric value of an ASCII digit character. -/
def digVal (c : Char) : Nat := c.toNat - 48

/-- Python word character (`\w`), ASCII model: letters, digits, underscore. -/
def isWordChar (c : Char) : Bool :=
  ('a' ≤ c && c ≤ 'z') || ('A' ≤ c && c ≤ 'Z') || isDig c || c = '_'

/-- Python whitespace, as stripped by `str.strip()` (ASCII set). -/
def isPySpace (c : Char) : Bool :=
  c = ' ' || c = '\t' || c = '\n' || c = '\r' || c = '\x0b' || c = '\x0c'

/-- Model of Python `str.strip()` on a character list. -/
def pyStripL (l : List Char) : List Char :=
  ((l.dropWhile isPySpace).reverse.dropWhile isPySpace).reverse

/-- Model of Python `str.strip()`. -/
def pyStrip (s : String) : String := ⟨pyStripL s.data⟩

/-- Scan of `needle.isPrefixOf hay` at every tail: does `needle` occur inside `hay`?
Model of Python `needle in hay` for strings. -/
def pyInL (needle : List Char) : List Char → Bool
  | [] => needle.isPrefixOf []
  | c :: t => needle.isPrefixOf (c :: t) || pyInL needle t

/-- Model of Python substring containment `needle in hay`. -/
def pyIn (needle hay : String) : Bool := pyInL needle.data hay.data

/-- Decimal digit as a character (only applied to values `< 10`). -/
def digChar (d : Nat) : Char :=
  match d with
  | 0 => '0' | 1 => '1' | 2 => '2' | 3 => '3' | 4 => '4'
  | 5 => '5' | 6 => '6' | 7 => '7' | 8 => '8' | 9 => '9'
  | _ => '*'

/-- Little-endian base-10 digits with explicit fuel (so that concrete
values reduce inside the kernel); `fuel ≥ n` gives `Nat.digits 10 n`. -/
def digitsRevFuel : Nat → Nat → List Nat
  | 0, _ => []
  | fuel + 1, n => if n = 0 then [] else n % 10 :: digitsRevFuel fuel (n / 10)

/-- Decimal representation of a natural number as characters
(model of Python `str(n)` for nonnegative `int`s). -/
def natReprL (n : Nat) : List Char :=
  if n = 0 then ['0'] else ((digitsRevFuel n n).map digChar).reverse

/-- Model of Python `str(n)` for a nonnegative `int`. -/
def natRepr (n : Nat) : String := ⟨natReprL n⟩

theorem digitsRevFuel_eq (fuel n : Nat) (h : n ≤ fuel) :
    digitsRevFuel fuel n = Nat.digits 10 n := by
  induction fuel generalizing n with
  | zero =>
    have hn : n = 0 := by omega
    subst hn
    simp [digitsRevFuel]
  | succ f ih =>
    unfold digitsRevFuel
    by_cases hn : n = 0
    · subst hn
      simp
    · rw [if_neg hn, Nat.digits_def' (by norm_num : 1 < 10) (Nat.pos_of_ne_zero hn)]
      congr 1
      exact ih _ (by
        have := Nat.div_lt_self (Nat.pos_of_ne_zero hn) (by norm_num : 1 < 10)
        omega)

theorem natReprL_eq_digits (n : Nat) :
    natReprL n = if n = 0 then ['0'] else ((Nat.digits 10 n).map digChar).reverse := by
  unfold natReprL
  rw [digitsRevFuel_eq n n le_rfl]

theorem digChar_inj : ∀ a < 10, ∀ b < 10, digChar a = digChar b → a = b := by
  decide

theorem map_digChar_inj : ∀ l₁ l₂ : List Nat, (∀ d ∈ l₁, d < 10) →
    (∀ d ∈ l₂, d < 10) → l₁.map digChar = l₂.map digChar → l₁ = l₂ := by
  intro l₁
  induction l₁ with
  | nil => intro l₂ _ _ h; cases l₂ <;> simp_all
  | cons a t ih =>
    intro l₂ h₁ h₂ h
    cases l₂ with
    | nil => simp_all
    | cons b t₂ =>
      simp only [List.map_cons, List.cons.injEq] at h
      have ha : a < 10 := h₁ a (List.mem_cons_self _ _)
      have hb : b < 10 := h₂ b (List.mem_cons_self _ _)
      have := digChar_inj a ha b hb h.1
      have ht := ih t₂ (fun d hd => h₁ d (List.mem_cons_of_mem _ hd))
        (fun d hd => h₂ d (List.mem_cons_of_mem _ hd)) h.2
      simp [this, ht]

theorem natReprL_ne_singleton_zero (b : Nat) (hb : b ≠ 0) : natReprL b ≠ ['0'] := by
  rw [natReprL_eq_digits, if_neg hb]
  intro h
  have h' : (Nat.digits 10 b).map digChar = ['0'] := by
    have := congrArg List.reverse h
    simpa using this
  rcases hd : Nat.digits 10 b with _ | ⟨d, t⟩
  · exact hb (Nat.digits_eq_nil_iff_eq_zero.mp hd)
  · rw [hd] at h'
    simp only [List.map_cons, List.cons.injEq, List.map_eq_nil_iff] at h'
    have hd10 : d < 10 := Nat.digits_lt_base (by norm_num) (hd ▸ List.mem_cons_self d t)
    have hd0 : d = 0 := digChar_inj d hd10 0 (by norm_num) h'.1
    have hof := Nat.ofDigits_digits 10 b
    rw [hd, h'.2, hd0] at hof
    simp [Nat.ofDigits] at hof
    exact hb hof.symm

theorem natReprL_injective : Function.Injective natReprL := by
  intro a b h
  by_cases ha : a = 0 <;> by_cases hb : b = 0
  · omega
  · exfalso
    rw [ha] at h
    exact natReprL_ne_singleton_zero b hb h.symm
  · exfalso
    rw [hb] at h
    exact natReprL_ne_singleton_zero a ha h
  · rw [natReprL_eq_digits, natReprL_eq_digits] at h
    simp only [if_neg ha, if_neg hb] at h
    have h' := List.reverse_injective h
    have hmem₁ : ∀ d ∈ Nat.digits 10 a, d < 10 :=
      fun d hd => Nat.digits_lt_base (by norm_num) hd
    have hmem₂ : ∀ d ∈ Nat.digits 10 b, d < 10 :=
      fun d hd => Nat.digits_lt_base (by norm_num) hd
    have := map_digChar_inj _ _ hmem₁ hmem₂ h'
    exact Nat.digits.injective 10 this

/-! ## Calendar dates (model of `datetime.datetime` at day granularity) -/

/-- A calendar date as produced by `datetime(year, month, day)`. -/
structure PyDate where
  year : Nat
  month : Nat
  day : Nat
deriving DecidableEq, Repr

/-- Gregorian leap-year rule, as used by `datetime`. -/
def isLeap (y : Nat) : Bool := y % 4 = 0 && (y % 100 ≠ 0 || y % 400 = 0)

/-- Number of days in a month of a given year. -/
def daysInMonth (y m : Nat) : Nat :=
  if m = 2 then (if isLeap y then 29 else 28)
  else if m = 4 || m = 6 || m = 9 || m = 11 then 30
  else 31

/-- The arguments `datetime(y, m, d)` accepts without raising `ValueError`
(`MINYEAR = 1`, `MAXYEAR = 9999`). -/
def validDate (y m d : Nat) : Bool :=
  1 ≤ y && y ≤ 9999 && 1 ≤ m && m ≤ 12 && 1 ≤ d && d ≤ daysInMonth y m

/-- Model of the `datetime(y, m, d)` constructor: `some` date, or `none`
for the `ValueError` it raises on out-of-range components. -/
def mkDatetime (y m d : Nat) : Option PyDate :=
  if validDate y m d then some ⟨y, m, d⟩ else none

/-- Model of `datetime` comparison: lexicographic on (year, month, day). -/
def dateLt (a b : PyDate) : Bool :=
  a.year < b.year || (a.year = b.year &&
    (a.month < b.month || (a.month = b.month && a.day < b.day)))

/-- Non-strict date order, defined independently for the spec-side
characterization of the filter. -/
def dateLe (a b : PyDate) : Bool :=
  a.year < b.year || (a.year = b.year &&
    (a.month < b.month || (a.month = b.month && a.day ≤ b.day)))

theorem not_dateLt_iff_dateLe (a b : PyDate) : dateLt a b = false ↔ dateLe b a = true := by
  unfold dateLt dateLe
  cases a; cases b
  simp only [Bool.or_eq_false_iff, Bool.and_eq_false_iff, Bool.or_eq_true,
    Bool.and_eq_true, decide_eq_false_iff_not, decide_eq_true_eq]
  omega

/-! ## `parse_date_from_text`: the regex `(\d{1,2})/(\d{1,2})/(\d{4})` -/

/-- Match `\d{4}` at the head of the input, returning the year value. -/
def matchYear4 : List Char → Option Nat
  | a :: b :: c :: d :: _ =>
    if isDig a && isDig b && isDig c && isDig d then
      some (digVal a * 1000 + digVal b * 100 + digVal c * 10 + digVal d)
    else none
  | _ => none

/-- Match `(\d{1,2})/(\d{4})` at the head of the input (the day/year tail of
the pattern), with the regex engine's greedy-then-backtrack choice for the
one-or-two-digit group. -/
def matchDayYear (l : List Char) : Option (Nat × Nat) :=
  (match l with
   | a :: b :: '/' :: rest =>
     if isDig a && isDig b then
       (matchYear4 rest).map (fun y => (digVal a * 10 + digVal b, y))
     else none
   | _ => none) <|>
  (match l with
   | a :: '/' :: rest =>
     if isDig a then (matchYear4 rest).map (fun y => (digVal a, y)) else none
   | _ => none)

/-- Match the whole pattern `(\d{1,2})/(\d{1,2})/(\d{4})` anchored at the
head of the input, returning `(month, day, year)` capture values. -/
def matchDateAt (l : List Char) : Option (Nat × Nat × Nat) :=
  (match l with
   | a :: b :: '/' :: rest =>
     if isDig a && isDig b then
       (matchDayYear rest).map (fun dy => (digVal a * 10 + digVal b, dy.1, dy.2))
     else none
   | _ => none) <|>
  (match l with
   | a :: '/' :: rest =>
     if isDig a then (matchDayYear rest).map (fun dy => (digVal a, dy.1, dy.2)) else none
   | _ => none)

/-- Model of `re.search` for this pattern: try the anchored match at each
successive start position, leftmost first. -/
def reSearchDate : List Char → Option (Nat × Nat × Nat)
  | [] => none
  | c :: rest => matchDateAt (c :: rest) <|> reSearchDate rest

/-- Embedding of `parse_date_from_text` (archive_session.py:163-180): search
for the first `M/D/YYYY` occurrence; build a `datetime`, mapping its
`ValueError` on invalid calendar values to `none`. -/
def parse_date_from_text (text : String) : Option PyDate :=
  match reSearchDate text.data with
  | some (m, d, y) => mkDatetime y m d
  | none => none

/-! ## `filter_keys_by_date` -/

/-- A link harvested from a page: `{'url': ..., 'text': ...}`. -/
structure LinkEntry where
  url : String
  text : String
deriving DecidableEq, Repr

/-- Loop body of `filter_keys_by_date` (archive_session.py:202-213): drop
entries without a parseable date and those outside the bounds. (`if
start_date:` on a `datetime` is a `None` test, since `datetime` objects are
always truthy.) -/
def filterStep (start_date end_date : Option PyDate)
    (filtered : List LinkEntry) (item : LinkEntry) : List LinkEntry :=
  match parse_date_from_text item.text with
  | none => filtered
  | some d =>
    if (match start_date with | some s => dateLt d s | none => false) then filtered
    else if (match end_date with | some e => dateLt e d | none => false) then filtered
    else filtered ++ [item]

/-- Embedding of `filter_keys_by_date` (archive_session.py:183-215): both
bounds absent returns the input unchanged, otherwise the filtering loop
runs over the entries. -/
def filter_keys_by_date (key_urls : List LinkEntry)
    (start_date end_date : Option PyDate) : List LinkEntry :=
  match start_date, end_date with
  | none, none => key_urls
  | _, _ => key_urls.foldl (filterStep start_date end_date) []

/-- The keep-condition exactly as claim C5 words it: a parseable date,
`≥ start` when start is given and `≤ end` when end is given. -/
def keepByDate (start_date end_date : Option PyDate) (item : LinkEntry) : Bool :=
  match parse_date_from_text item.text with
  | none => false
  | some d =>
    (match start_date with | some s => dateLe s d | none => true) &&
    (match end_date with | some e => dateLe d e | none => true)

/-! ## HTML documents and the link extractors

An HTML body is represented post-parse, as the node tree BeautifulSoup
builds: text nodes and elements with a tag, attributes and children. A
document is the list of top-level nodes. -/

/-- A parsed HTML node. -/
inductive Node where
  | text : String → Node
  | elem : String → List (String × String) → List Node → Node

/-- First value for an attribute name, if present (`tag['href']`). -/
def attrLookup (attrs : List (String × String)) (key : String) : Option String :=
  match attrs.find? (fun p => p.1 = key) with
  | some p => some p.2
  | none => none

mutual

/-- Model of `soup.find_all('a', href=True)` restricted to one node: every descendant
`<a>` element carrying an `href` attribute, in document (pre-order) order. -/
def nodeAnchors : Node → List Node
  | .text _ => []
  | .elem tag attrs children =>
    (if tag = "a" && (attrLookup attrs "href").isSome
     then [Node.elem tag attrs children] else []) ++ nodesAnchors children

/-- Model of `find_all('a', href=True)` over a list of sibling nodes. -/
def nodesAnchors : List Node → List Node
  | [] => []
  | n :: ns => nodeAnchors n ++ nodesAnchors ns

end

mutual

/-- The descendant text fragments of a node, in document order (the
`NavigableString`s BeautifulSoup iterates for `get_text`). -/
def nodeStrings : Node → List String
  | .text s => [s]
  | .elem _ _ children => nodesStrings children

/-- Descendant text fragments of a list of sibling nodes. -/
def nodesStrings : List Node → List String
  | [] => []
  | n :: ns => nodeStrings n ++ nodesStrings ns

end

/-- Model of `tag.get_text(strip=True)`: each descendant string is stripped
individually, empty results are dropped, and the rest are concatenated with
an empty separator. -/
def getTextStrip (n : Node) : String :=
  String.join (((nodeStrings n).map pyStrip).filter (fun s => s ≠ ""))

/-- The trimmed visible text of a node: the raw concatenation of its
descendant text fragments, stripped once at the ends. This is the reading
of "trimmed visible text" in the specification, stated for comparison with
`getTextStrip`. -/
def trimmedVisibleText (n : Node) : String :=
  pyStrip (String.join (nodeStrings n))

/-- The `href` attribute of an anchor node (empty for non-elements; the
extractors only apply it to anchors, which always carry one). -/
def hrefOf : Node → String
  | .text _ => ""
  | .elem _ attrs _ => (attrLookup attrs "href").getD ""

/-- Model of `str.startswith`, by character-list prefix test. -/
def pyStartsWith (s pre : String) : Bool := pre.data.isPrefixOf s.data

/-- Scheme of an absolute http(s) URL, e.g. `"https"`. -/
def schemeOf (url : String) : String :=
  if pyStartsWith url "https://" then "https"
  else if pyStartsWith url "http://" then "http" else ""

/-- Characters of an http(s) URL after `scheme://`. -/
def afterScheme (url : String) : List Char :=
  if pyStartsWith url "https://" then url.data.drop 8
  else if pyStartsWith url "http://" then url.data.drop 7 else url.data

/-- The `scheme://netloc` origin of an absolute http(s) URL. -/
def originOf (url : String) : String :=
  ⟨(schemeOf url).data ++ "://".data ++ (afterScheme url).takeWhile (fun c => c ≠ '/')⟩

/-- Everything up to and including the last `/` of the base URL's path, with
any query or fragment removed first — the resolution base for a relative
reference. -/
def baseDirOf (url : String) : String :=
  let noQuery : List Char := url.data.takeWhile (fun c => c ≠ '?' && c ≠ '#')
  let tail : List Char := afterScheme ⟨noQuery⟩
  let path : List Char := tail.dropWhile (fun c => c ≠ '/')
  if path.isEmpty then originOf url ++ "/"
  else ⟨(originOf url).data ++ (path.reverse.dropWhile (fun c => c ≠ '/')).reverse⟩

/-- Modelled from `urllib.parse.urljoin`, restricted to the reference shapes
this crawler produces: absolute http(s) URLs, scheme-relative (`//…`),
root-relative (`/…`), and plain relative paths without dot segments. -/
def urljoin (base href : String) : String :=
  if href = "" then base
  else if pyStartsWith href "http://" || pyStartsWith href "https://" then href
  else if pyStartsWith href "//" then schemeOf base ++ ":" ++ href
  else if pyStartsWith href "/" then originOf base ++ href
  else baseDirOf base ++ href

/-- Embedding of `extract_key_urls` (archive_session.py:109-133): walk every
anchor with an `href`, keep those whose `get_text(strip=True)` contains
`'Key'`, resolving `href` against the base URL. -/
def extract_key_urls (doc : List Node) (base_url : String) : List LinkEntry :=
  (nodesAnchors doc).foldl (fun key_links anchor =>
    let text := getTextStrip anchor
    if pyIn "Key" text then
      key_links ++ [{ url := urljoin base_url (hrefOf anchor), text := text }]
    else key_links) []

/-- Embedding of `extract_zone_urls` (archive_session.py:136-160): same walk
with the `'Zones File'` predicate. -/
def extract_zone_urls (doc : List Node) (base_url : String) : List LinkEntry :=
  (nodesAnchors doc).foldl (fun zone_links anchor =>
    let text := getTextStrip anchor
    if pyIn "Zones File" text then
      zone_links ++ [{ url := urljoin base_url (hrefOf anchor), text := text }]
    else zone_links) []

/-- The extractor as claim C7 words it: anchors kept when their *trimmed
visible text* contains the predicate substring, that text stored in the
entry. -/
def extractLinksClaim (needle : String) (doc : List Node) (base_url : String) : List LinkEntry :=
  ((nodesAnchors doc).filter (fun a => pyIn needle (trimmedVisibleText a))).map
    (fun a => { url := urljoin base_url (hrefOf a), text := trimmedVisibleText a })

/-! ## The Zone Crawler (`fetch_zones_from_keys`) -/

/-- A second-level link tagged with the first-level link that produced it. -/
structure ZoneEntry where
  key_url : String
  key_text : String
  zone_url : String
  zone_text : String
deriving DecidableEq, Repr

/-- An HTTP response as the crawler consumes it: the status code and the
parsed body (`response.text` fed to BeautifulSoup). -/
structure HResponse where
  status_code : Nat
  body : List Node

/-- Loop body of `fetch_zones_from_keys` (archive_session.py:231-260):
`.error` is a raised `requests.RequestException`; a non-200 status or a
request error skips the key (`continue`); a 200 response has its Zones
links collected. -/
def crawlStep (fetch : String → Except String HResponse)
    (all_zones : List ZoneEntry) (key_item : LinkEntry) : List ZoneEntry :=
  match fetch key_item.url with
  | .error _ => all_zones
  | .ok response =>
    if response.status_code ≠ 200 then all_zones
    else
      all_zones ++ (extract_zone_urls response.body key_item.url).map
        (fun zone => { key_url := key_item.url, key_text := key_item.text,
                       zone_url := zone.url, zone_text := zone.text })

/-- Embedding of `fetch_zones_from_keys` (archive_session.py:218-262), the
network abstracted as the oracle `fetch`. -/
def fetch_zones_from_keys (keys_urls : List LinkEntry)
    (fetch : String → Except String HResponse) : List ZoneEntry :=
  keys_urls.foldl (crawlStep fetch) []

/-- The Zones entries one key contributes under the code's behavior: none
on a request error or a status other than 200, its extracted links tagged
with the key otherwise. -/
def zonesFromKey (fetch : String → Except String HResponse)
    (key_item : LinkEntry) : List ZoneEntry :=
  match fetch key_item.url with
  | .error _ => []
  | .ok response =>
    if response.status_code = 200 then
      (extract_zone_urls response.body key_item.url).map
        (fun zone => { key_url := key_item.url, key_text := key_item.text,
                       zone_url := zone.url, zone_text := zone.text })
    else []

/-- The crawler as claim C1 words it: a key is skipped exactly when its
fetch errors or returns a non-2xx status; any 2xx response has its Zones
links collected. -/
def fetchZonesClaim (keys_urls : List LinkEntry)
    (fetch : String → Except String HResponse) : List ZoneEntry :=
  keys_urls.foldl (fun all_zones key_item =>
    match fetch key_item.url with
    | .error _ => all_zones
    | .ok response =>
      if 200 ≤ response.status_code && response.status_code < 300 then
        all_zones ++ (extract_zone_urls response.body key_item.url).map
          (fun zone => { key_url := key_item.url, key_text := key_item.text,
                         zone_url := zone.url, zone_text := zone.text })
      else all_zones) []

/-! ## The Downloader (`download_zone_files`) -/

/-- Model of `urllib.parse.urlparse(url).path` for http(s) URLs (and bare
paths without a scheme): the part after the network location, with query,
fragment and the last segment's `;parameters` removed. -/
def urlPath (url : String) : String :=
  let noQ : List Char := url.data.takeWhile (fun c => c ≠ '?' && c ≠ '#')
  let raw : List Char :=
    if pyStartsWith url "http://" || pyStartsWith url "https://" then
      (afterScheme ⟨noQ⟩).dropWhile (fun c => c ≠ '/')
    else noQ
  let seg : List Char := (raw.reverse.takeWhile (fun c => c ≠ '/')).reverse
  let pre : List Char := raw.take (raw.length - seg.length)
  ⟨pre ++ seg.takeWhile (fun c => c ≠ ';')⟩

/-- Model of `os.path.basename`: everything after the last `/`. -/
def pyBasename (p : String) : String :=
  ⟨(p.data.reverse.takeWhile (fun c => c ≠ '/')).reverse⟩

/-- Model of `str.endswith`. -/
def pyEndsWith (s suffix : String) : Bool := suffix.data.isSuffixOf s.data

/-- One character of `re.sub(r'[^\w\-_]', '_', ·)`: characters outside
word-chars, `-` and `_` become `_`. -/
def sanitizeChar (c : Char) : Char :=
  if isWordChar c || c = '-' || c = '_' then c else '_'

/-- Model of `re.sub(r'[^\w\-_]', '_', zone_text)[:50]`. -/
def safeText (zone_text : String) : String :=
  ⟨(zone_text.data.map sanitizeChar).take 50⟩

/-- Filename derivation of `download_zone_files` (archive_session.py:302-308):
the URL path's basename when it is nonempty and ends in `.zip`, otherwise the
sanitized, truncated zone text suffixed `.zip`, or `zone_file.zip` when the
sanitized text is empty. -/
def deriveFilename (zone_url zone_text : String) : String :=
  let filename := pyBasename (urlPath zone_url)
  if filename = "" || !(pyEndsWith filename ".zip") then
    let safe := safeText zone_text
    if safe ≠ "" then safe ++ ".zip" else "zone_file.zip"
  else filename

/-- Filename derivation exactly as claim C2 words it: *every* non-word
character of the zone text replaced by `_` (including `-`). -/
def deriveFilenameClaim (zone_url zone_text : String) : String :=
  let filename := pyBasename (urlPath zone_url)
  if filename ≠ "" && pyEndsWith filename ".zip" then filename
  else
    let safe : String := ⟨(zone_text.data.map
      (fun c => if isWordChar c then c else '_')).take 50⟩
    if safe = "" then "zone_file.zip" else safe ++ ".zip"

/-- Filename derivation as amended: every character that is neither a word
character nor a hyphen is replaced by `_`. -/
def deriveFilenameAmended (zone_url zone_text : String) : String :=
  let filename := pyBasename (urlPath zone_url)
  if filename ≠ "" && pyEndsWith filename ".zip" then filename
  else
    let safe : String := ⟨(zone_text.data.map
      (fun c => if isWordChar c || c = '-' then c else '_')).take 50⟩
    if safe = "" then "zone_file.zip" else safe ++ ".zip"

/-- Model of `pathlib.PurePath.stem` on a bare filename: drop the suffix
that starts at the last `.`, provided that dot is neither the first nor the
last character. -/
def pyStem (name : String) : String :=
  let l := name.data
  match l.reverse.indexOf? '.' with
  | none => name
  | some revIdx =>
    let i := l.length - 1 - revIdx
    if 0 < i && i < l.length - 1 then ⟨l.take i⟩ else name

/-- The candidate filename `f"{stem}_{counter}.zip"` tried by the collision
loop. -/
def collCand (stem : List Char) (counter : Nat) : String :=
  ⟨stem ++ '_' :: (natReprL counter ++ ".zip".data)⟩

/-- The `while filepath.exists()` loop, with explicit fuel: try
`stem_1.zip`, `stem_2.zip`, … until a name not in `existing` is found.
`existing.length` fuel always suffices (`findFresh_fresh`). -/
def findFresh (existing : List String) (stem : List Char) : Nat → Nat → String
  | 0, k => collCand stem k
  | fuel + 1, k =>
    if collCand stem k ∈ existing then findFresh existing stem fuel (k + 1)
    else collCand stem k

/-- Collision handling of `download_zone_files` (archive_session.py:310-318):
keep the derived name when no file with it exists, else suffix `_1`, `_2`, …
before the extension of the original name. -/
def resolveCollision (existing : List String) (filename : String) : String :=
  if filename ∈ existing then findFresh existing (pyStem filename).data existing.length 1
  else filename

/-- Outcome of one `session.get` + body streaming: success, a
`RequestException` before the file is opened (`raise_for_status`), or a
`RequestException` mid-stream after the file was created. -/
inductive DlOutcome where
  | ok
  | failStatus
  | failMid
deriving DecidableEq, Repr

/-- The download directory and result list threaded through the loop:
`existing` is the set of filenames present in the directory (in creation
order), `downloaded` the list the function returns. -/
structure DlState where
  existing : List String
  downloaded : List String
deriving DecidableEq, Repr

/-- One iteration of the download loop (archive_session.py:298-339). -/
def dlStep (outcome : ZoneEntry → DlOutcome) (st : DlState) (zone : ZoneEntry) : DlState :=
  let filename := deriveFilename zone.zone_url zone.zone_text
  let filepath := resolveCollision st.existing filename
  match outcome zone with
  | .failStatus => st
  | .failMid => { st with existing := st.existing ++ [filepath] }
  | .ok => { existing := st.existing ++ [filepath],
             downloaded := st.downloaded ++ [filepath] }

/-- Embedding of `download_zone_files` (archive_session.py:265-341) over a
download directory initially holding `existing0`. Network and disk bytes are
abstracted by the per-entry `outcome` oracle; the returned state carries the
directory contents and the list of successfully downloaded paths. -/
def download_zone_files (zones : List ZoneEntry) (outcome : ZoneEntry → DlOutcome)
    (existing0 : List String) : DlState :=
  zones.foldl (dlStep outcome) { existing := existing0, downloaded := [] }

/-! ## The Extractor (`extract_zip_files`) -/

/-- Outcome of opening one path as a zip archive: the path does not exist,
`zipfile.BadZipFile`, any other exception, or success. -/
inductive ZipOutcome where
  | missing
  | badZip
  | otherError
  | ok
deriving DecidableEq, Repr

/-- Loop body of `extract_zip_files` (archive_session.py:361-386): a
missing path, a `BadZipFile` and any other exception are skipped; a
successful `extractall` appends the extraction directory to the results and
the archive's members to the written files. -/
def extractStep (outcome : String → ZipOutcome) (members : String → List String)
    (extract_dir : String) (acc : List String × List (String × String))
    (zip_path : String) : List String × List (String × String) :=
  match outcome zip_path with
  | .missing => acc
  | .badZip => acc
  | .otherError => acc
  | .ok => (acc.1 ++ [extract_dir],
            acc.2 ++ (members zip_path).map (fun m => (extract_dir, m)))

/-- Embedding of `extract_zip_files` (archive_session.py:344-388). Returns
the `extracted` result list and the `(directory, member)` pairs written to
disk; every failure is caught and skips to the next file. -/
def extract_zip_files (zip_files : List String) (outcome : String → ZipOutcome)
    (members : String → List String) (extract_dir : String) :
    List String × List (String × String) :=
  zip_files.foldl (extractStep outcome members extract_dir) ([], [])

/-! ## The Cookie Loader (`load_json_cookies`, `load_cookies`) -/

/-- A JSON value as produced by `json.load` (numbers restricted to
integers; no claim involves numeric cookie content). -/
inductive Json where
  | null
  | bool (b : Bool)
  | num (n : Int)
  | str (s : String)
  | arr (l : List Json)
  | obj (m : List (String × Json))

mutual

/-- Python `==` on JSON values (used for dict key lookup). -/
def jsonBeq : Json → Json → Bool
  | .null, .null => true
  | .bool a, .bool b => a == b
  | .num a, .num b => a == b
  | .str a, .str b => a == b
  | .arr a, .arr b => jsonBeqList a b
  | .obj a, .obj b => jsonBeqObj a b
  | _, _ => false

/-- Elementwise `==` on JSON arrays. -/
def jsonBeqList : List Json → List Json → Bool
  | [], [] => true
  | a :: as', b :: bs' => jsonBeq a b && jsonBeqList as' bs'
  | _, _ => false

/-- Entrywise `==` on JSON objects (as loaded, entries are in insertion
order with unique keys). -/
def jsonBeqObj : List (String × Json) → List (String × Json) → Bool
  | [], [] => true
  | a :: as', b :: bs' => a.1 == b.1 && jsonBeq a.2 b.2 && jsonBeqObj as' bs'
  | _, _ => false

end

/-- Model of `'k' in d` for a loaded JSON object. -/
def hasKey (m : List (String × Json)) (k : String) : Bool :=
  m.any (fun p => p.1 = k)

/-- Model of `d['k']` for a loaded JSON object (`json.load` collapses duplicate
keys, so entries are unique and the first match is the value). -/
def getKey (m : List (String × Json)) (k : String) : Json :=
  ((m.find? (fun p => p.1 = k)).map Prod.snd).getD .null

/-- Model of `d[k] = v` on a Python dict: update the value in place when the key is
present, else append the new binding. -/
def dictInsert (m : List (Json × Json)) (k v : Json) : List (Json × Json) :=
  if m.any (fun p => jsonBeq p.1 k) then
    m.map (fun p => if jsonBeq p.1 k then (p.1, v) else p)
  else m ++ [(k, v)]

/-- One iteration of the `load_json_cookies` array loop on one element:
`some (name, value)` when the element is an object carrying both fields,
`none` when the membership test fails (element skipped), `.error` when the
Python code would raise a `TypeError` (`'name' in cookie` on a non-container,
indexing a string, or using an unhashable value as a dict key). -/
def cookieOfItem : Json → Except Unit (Option (Json × Json))
  | .obj m =>
    if hasKey m "name" && hasKey m "value" then
      match getKey m "name" with
      | .arr _ => .error ()
      | .obj _ => .error ()
      | k => .ok (some (k, getKey m "value"))
    else .ok none
  | .str s =>
    if pyIn "name" s then (if pyIn "value" s then .error () else .ok none)
    else .ok none
  | .arr l =>
    if l.any (fun e => match e with | .str s => s = "name" | _ => false) then
      (if l.any (fun e => match e with | .str s => s = "value" | _ => false)
       then .error () else .ok none)
    else .ok none
  | _ => .error ()

/-- Embedding of `load_json_cookies` (archive_session.py:38-58) on an
already-parsed JSON value: an array is folded through the name/value loop,
a flat object is returned as the mapping itself, and anything else falls
through to the initial empty dict. -/
def load_json_cookies : Json → Except Unit (List (Json × Json))
  | .arr l =>
    l.foldlM (fun cookies c =>
      match cookieOfItem c with
      | .error e => .error e
      | .ok none => .ok cookies
      | .ok (some (k, v)) => .ok (dictInsert cookies k v)) []
  | .obj m => .ok (m.map (fun p => (Json.str p.1, p.2)))
  | _ => .ok []

/-- The mapping claim C8 describes: the name/value pairs accumulated with
dict-assignment semantics. -/
def cookieMapOf (pairs : List (Json × Json)) : List (Json × Json) :=
  pairs.foldl (fun m p => dictInsert m p.1 p.2) []

/-- ASCII `str.lower()`. -/
def strLower (s : String) : String := ⟨s.data.map Char.toLower⟩

/-- Model of `pathlib.PurePath.suffix`: the final component's extension
from its last `.`, provided that dot is neither first nor last. -/
def pySuffix (path : String) : String :=
  let name := pyBasename path
  let l := name.data
  match l.reverse.indexOf? '.' with
  | none => ""
  | some revIdx =>
    let i := l.length - 1 - revIdx
    if 0 < i && i < l.length - 1 then ⟨l.drop i⟩ else ""

/-- Embedding of `load_cookies` (archive_session.py:61-88), dispatching on
the lowercased suffix. File content is abstracted: `jsonContent` is the
parse result `json.load` would produce (`none` = `JSONDecodeError`);
`netscape` is the outcome of the Netscape jar parse and `kvFallback` the
manual `key=value` fallback parse, both opaque to the claims here. -/
def load_cookies (path : String) (jsonContent : Option Json)
    (netscape : Except Unit (List (Json × Json)))
    (kvFallback : List (Json × Json)) : Except Unit (List (Json × Json)) :=
  let suffix := strLower (pySuffix path)
  if suffix = ".json" then
    match jsonContent with
    | some j => load_json_cookies j
    | none => .error ()
  else if suffix = ".txt" || suffix = ".cookies" then
    match netscape with
    | .ok jar => .ok jar
    | .error _ => .ok kvFallback
  else
    match jsonContent with
    | some j => load_json_cookies j
    | none => netscape

/-! ## The `main` prelude (argument validation before any network call) -/

/-- The parsed command-line arguments of `main`. -/
structure Args where
  cookie_file : String
  output : Option String
  verbose : Bool
  url : String
  list_keys : Bool
  list_zones : Bool
  start_date : Option String
  end_date : Option String
  download : Option String
  extract : Bool

/-- The observable outcome of a run: the process exit code, how many
network requests were issued, and the lines written to standard error. -/
structure MainResult where
  exitCode : Nat
  networkCalls : Nat
  stderrLines : List String
deriving DecidableEq, Repr

/-- Python truthiness of an optional string (`if args.start_date:`):
`None` and the empty string are falsy. -/
def truthyStr : Option String → Bool
  | none => false
  | some s => s ≠ ""

/-- Embedding of `main` (archive_session.py:454-511): date-argument
parsing, the `--extract`/`--download` and `--download`/`--list-zones`
checks, cookie-file existence, cookie loading, and the root-page fetch, in
that order. Everything after a successful root fetch (listing, crawling,
downloading, extraction) performs its own network activity and always
finishes with exit status 0; it is abstracted here as the single root
network event with normal completion, which is all the prelude claims
observe. -/
def main_model (args : Args) (cookieExists : Bool)
    (cookieLoad : Except Unit (List (Json × Json)))
    (rootFetchOk : Bool) : MainResult :=
  if truthyStr args.start_date &&
      (parse_date_from_text (args.start_date.getD "")).isNone then
    ⟨1, 0, ["Error: Invalid start date format. Use MM/DD/YYYY"]⟩
  else if truthyStr args.end_date &&
      (parse_date_from_text (args.end_date.getD "")).isNone then
    ⟨1, 0, ["Error: Invalid end date format. Use MM/DD/YYYY"]⟩
  else if args.extract && args.download = none then
    ⟨1, 0, ["Error: --extract requires --download to be specified"]⟩
  else if args.download ≠ none && !args.list_zones then
    ⟨1, 0, ["Error: --download requires --list-zones to be specified"]⟩
  else if !cookieExists then
    ⟨1, 0, ["Error: Cookie file not found"]⟩
  else
    match cookieLoad with
    | .error _ => ⟨1, 0, ["Error loading cookies"]⟩
    | .ok _ =>
      if rootFetchOk then ⟨0, 1, []⟩
      else ⟨1, 1, ["Error fetching page"]⟩

/-! ## Generic lemmas about the accumulate-by-append loops -/

theorem foldl_ite_append {α β : Type} (p : α → Bool) (g : α → β) (l : List α)
    (acc : List β) :
    l.foldl (fun a x => if p x then a ++ [g x] else a) acc
      = acc ++ (l.filter p).map g := by
  induction l generalizing acc with
  | nil => simp
  | cons x t ih =>
    simp only [List.foldl_cons, List.filter_cons]
    by_cases hp : p x
    · rw [if_pos hp, if_pos hp, ih]
      simp
    · rw [if_neg hp, if_neg hp, ih]

theorem foldl_append_flatMap {α β : Type} (g : α → List β) (l : List α)
    (acc : List β) :
    l.foldl (fun a x => a ++ g x) acc = acc ++ l.flatMap g := by
  induction l generalizing acc with
  | nil => simp
  | cons x t ih =>
    simp only [List.foldl_cons, List.flatMap_cons, ih]
    simp

/-! ## Date order lemmas -/

theorem dateLe_eq_not_dateLt (a b : PyDate) : dateLe b a = !dateLt a b := by
  cases a; cases b
  rw [Bool.eq_iff_iff]
  unfold dateLt dateLe
  simp only [Bool.not_eq_true', Bool.or_eq_true, Bool.and_eq_true, decide_eq_true_eq,
    Bool.or_eq_false_iff, Bool.and_eq_false_iff, decide_eq_false_iff_not]
  omega

theorem filterStep_eq (sd ed : Option PyDate) (acc : List LinkEntry) (x : LinkEntry) :
    filterStep sd ed acc x = (if keepByDate sd ed x then acc ++ [x] else acc) := by
  unfold filterStep keepByDate
  rcases parse_date_from_text x.text with _ | d
  · simp
  · rcases sd with _ | s <;> rcases ed with _ | e
    · simp
    · by_cases h2 : dateLt e d
      · have : dateLe d e = false := by rw [dateLe_eq_not_dateLt, h2]; rfl
        simp [h2, this]
      · have : dateLe d e = true := by
          rw [dateLe_eq_not_dateLt, Bool.eq_false_iff.mpr h2]; rfl
        simp [h2, this]
    · by_cases h1 : dateLt d s
      · have : dateLe s d = false := by rw [dateLe_eq_not_dateLt, h1]; rfl
        simp [h1, this]
      · have : dateLe s d = true := by
          rw [dateLe_eq_not_dateLt, Bool.eq_false_iff.mpr h1]; rfl
        simp [h1, this]
    · by_cases h1 : dateLt d s
      · have : dateLe s d = false := by rw [dateLe_eq_not_dateLt, h1]; rfl
        simp [h1, this]
      · have hs : dateLe s d = true := by
          rw [dateLe_eq_not_dateLt, Bool.eq_false_iff.mpr h1]; rfl
        by_cases h2 : dateLt e d
        · have : dateLe d e = false := by rw [dateLe_eq_not_dateLt, h2]; rfl
          simp [h1, h2, hs, this]
        · have : dateLe d e = true := by
            rw [dateLe_eq_not_dateLt, Bool.eq_false_iff.mpr h2]; rfl
          simp [h1, h2, hs, this]

theorem filter_loop_eq (sd ed : Option PyDate) (l : List LinkEntry)
    (acc : List LinkEntry) :
    l.foldl (filterStep sd ed) acc = acc ++ l.filter (keepByDate sd ed) := by
  induction l generalizing acc with
  | nil => simp
  | cons x t ih =>
    simp only [List.foldl_cons, List.filter_cons]
    rw [filterStep_eq]
    by_cases hk : keepByDate sd ed x
    · rw [if_pos hk, if_pos hk, ih]
      simp
    · rw [if_neg hk, if_neg hk, ih]

/-- The three dated entries of the specification's `filterByDate` example. -/
def exampleDatedEntries : List LinkEntry :=
  [⟨"u1", "12/31/2023"⟩, ⟨"u2", "01/15/2024"⟩, ⟨"u3", "02/01/2024"⟩]

/-- C5: with both bounds absent `filter_keys_by_date` returns its input
unchanged; with at least one bound present it keeps, in input order,
exactly the entries whose text parses to a date inside the inclusive
bounds, dropping unparseable entries; and on the specification's example
only the `01/15/2024` entry survives the January 2024 window. -/
theorem filter_keys_by_date_spec (entries : List LinkEntry) (sd ed : Option PyDate) :
    filter_keys_by_date entries none none = entries ∧
    (sd ≠ none ∨ ed ≠ none →
      filter_keys_by_date entries sd ed = entries.filter (keepByDate sd ed)) ∧
    filter_keys_by_date exampleDatedEntries (some ⟨2024, 1, 1⟩) (some ⟨2024, 1, 31⟩)
      = [⟨"u2", "01/15/2024"⟩] := by
  refine ⟨rfl, ?_, by decide⟩
  intro h
  unfold filter_keys_by_date
  rcases sd with _ | s <;> rcases ed with _ | e
  · exact absurd h (by simp)
  · exact (filter_loop_eq none (some e) entries []).trans (by simp)
  · exact (filter_loop_eq (some s) none entries []).trans (by simp)
  · exact (filter_loop_eq (some s) (some e) entries []).trans (by simp)

/-- Witness for C5: the inclusive-window branch applied to the example
entries keeps exactly the middle entry. -/
theorem filter_keys_by_date_spec_witness :
    filter_keys_by_date exampleDatedEntries (some ⟨2024, 1, 1⟩) (some ⟨2024, 1, 31⟩)
      = [⟨"u2", "01/15/2024"⟩] := by
  have h := (filter_keys_by_date_spec exampleDatedEntries
    (some ⟨2024, 1, 1⟩) (some ⟨2024, 1, 31⟩)).2.1 (Or.inl (by simp))
  rw [h]
  decide

/-- C6: `parse_date_from_text` returns 2024-03-05 for the example with an
embedded date, returns `none` when no pattern occurs and when the matched
numbers are not a valid calendar date, and every date it returns satisfies
the `datetime` validity predicate. -/
theorem parse_date_from_text_spec :
    parse_date_from_text "Trading Room Keys 03/05/2024" = some ⟨2024, 3, 5⟩ ∧
    parse_date_from_text "no date here" = none ∧
    parse_date_from_text "13/40/2024" = none ∧
    (∀ (s : String) (d : PyDate), parse_date_from_text s = some d →
      validDate d.year d.month d.day = true) := by
  refine ⟨by decide, by decide, by decide, ?_⟩
  intro s d h
  unfold parse_date_from_text at h
  rcases hm : reSearchDate s.data with _ | ⟨m, dd, y⟩
  · rw [hm] at h
    cases h
  · rw [hm] at h
    change mkDatetime y m dd = some d at h
    unfold mkDatetime at h
    by_cases hv : validDate y m dd = true
    · rw [if_pos hv] at h
      cases h
      exact hv
    · rw [if_neg hv] at h
      cases h

/-- Witness for C6: the validity conjunct applied at the example input. -/
theorem parse_date_from_text_spec_witness :
    validDate 2024 3 5 = true :=
  parse_date_from_text_spec.2.2.2 "Trading Room Keys 03/05/2024" ⟨2024, 3, 5⟩
    (by decide)

/-! ## C7: the link extractors -/

/-- The specification's link-extractor example document:
`<a href="/k1">Keys: 01/01/2024</a><a href="/other">Other</a>`. -/
def exampleKeyDoc : List Node :=
  [.elem "a" [("href", "/k1")] [.text "Keys: 01/01/2024"],
   .elem "a" [("href", "/other")] [.text "Other"]]

/-- An anchor whose visible text `Zones File` is split across an inner
element: `<a href="/z1">Zones <b>File</b></a>`. -/
def splitAnchor : Node :=
  .elem "a" [("href", "/z1")] [.text "Zones ", .elem "b" [] [.text "File"]]

/-- Counterexample to C7 as stated: the trimmed visible text of
`splitAnchor` is `"Zones File"` and contains the Zones predicate substring,
so the claim returns the anchor — but the code tests
`get_text(strip=True)`, which strips each text fragment *before*
concatenating (giving `"ZonesFile"`), and returns nothing. -/
theorem extract_zone_urls_cex :
    trimmedVisibleText splitAnchor = "Zones File" ∧
    pyIn "Zones File" (trimmedVisibleText splitAnchor) = true ∧
    extract_zone_urls [splitAnchor] "https://h/p" = [] ∧
    extractLinksClaim "Zones File" [splitAnchor] "https://h/p"
      = [⟨"https://h/z1", "Zones File"⟩] := by
  decide

/-- C7 (amended): the extractors return exactly the anchors carrying an
`href` whose `get_text(strip=True)` text — each descendant fragment
stripped individually, then concatenated — contains the predicate
substring (`Key`, resp. `Zones File`), in document order with duplicates
retained, each `href` resolved against the base URL and that text stored in
the entry; on the specification's example exactly the first anchor is
returned, resolved against the base. -/
theorem extract_urls_characterization (doc : List Node) (base_url : String) :
    extract_key_urls doc base_url
      = ((nodesAnchors doc).filter (fun a => pyIn "Key" (getTextStrip a))).map
          (fun a => { url := urljoin base_url (hrefOf a), text := getTextStrip a }) ∧
    extract_zone_urls doc base_url
      = ((nodesAnchors doc).filter (fun a => pyIn "Zones File" (getTextStrip a))).map
          (fun a => { url := urljoin base_url (hrefOf a), text := getTextStrip a }) ∧
    extract_key_urls exampleKeyDoc "https://www.eminiplayer.net/archive.aspx"
      = [⟨"https://www.eminiplayer.net/k1", "Keys: 01/01/2024"⟩] := by
  refine ⟨?_, ?_, by decide⟩
  · exact (foldl_ite_append (fun a => pyIn "Key" (getTextStrip a))
      (fun a => ({ url := urljoin base_url (hrefOf a), text := getTextStrip a } : LinkEntry))
      (nodesAnchors doc) []).trans (List.nil_append _)
  · exact (foldl_ite_append (fun a => pyIn "Zones File" (getTextStrip a))
      (fun a => ({ url := urljoin base_url (hrefOf a), text := getTextStrip a } : LinkEntry))
      (nodesAnchors doc) []).trans (List.nil_append _)

/-! ## C1: the Zone Crawler -/

theorem crawlStep_eq (fetch : String → Except String HResponse)
    (acc : List ZoneEntry) (k : LinkEntry) :
    crawlStep fetch acc k = acc ++ zonesFromKey fetch k := by
  unfold crawlStep zonesFromKey
  rcases fetch k.url with e | r
  · simp
  · by_cases h : r.status_code = 200
    · simp [h]
    · simp [h]

theorem crawl_loop (fetch : String → Except String HResponse)
    (l : List LinkEntry) (acc : List ZoneEntry) :
    l.foldl (crawlStep fetch) acc = acc ++ l.flatMap (zonesFromKey fetch) := by
  induction l generalizing acc with
  | nil => simp
  | cons k t ih =>
    rw [List.foldl_cons, crawlStep_eq, ih]
    simp

/-- C1 (amended): the crawl is the in-order concatenation, over all keys,
of each key's contribution — no entries when fetching the key raises a
`RequestException` or returns a status *other than 200* (the key is
skipped), and its extracted Zones links tagged with the key when the status
is exactly 200; every key is processed exactly once (no abort, no
retry). -/
theorem fetch_zones_from_keys_spec (keys_urls : List LinkEntry)
    (fetch : String → Except String HResponse) :
    fetch_zones_from_keys keys_urls fetch
      = keys_urls.flatMap (zonesFromKey fetch) := by
  unfold fetch_zones_from_keys
  rw [crawl_loop]
  exact List.nil_append _

/-- A fetch oracle answering every URL with status 204 (a 2xx status that
is not 200) and a body containing one Zones File link. -/
def status204Fetch : String → Except String HResponse := fun _ =>
  .ok ⟨204, [.elem "a" [("href", "/f.zip")] [.text "Zones File 01/01/2024"]]⟩

/-- Counterexample to C1 as stated: under a 204 response the claim says the
key's Zones links are collected (204 is 2xx), but the code checks
`status_code != 200` and skips the key, returning no entries. -/
theorem fetch_zones_from_keys_cex :
    fetch_zones_from_keys [⟨"https://h/k1", "Keys 01/01/2024"⟩] status204Fetch = [] ∧
    fetchZonesClaim [⟨"https://h/k1", "Keys 01/01/2024"⟩] status204Fetch
      = [⟨"https://h/k1", "Keys 01/01/2024", "https://h/f.zip", "Zones File 01/01/2024"⟩] ∧
    fetch_zones_from_keys [⟨"https://h/k1", "Keys 01/01/2024"⟩] status204Fetch
      ≠ fetchZonesClaim [⟨"https://h/k1", "Keys 01/01/2024"⟩] status204Fetch := by
  refine ⟨by decide, by decide, by decide⟩

/-! ## C2: filename derivation -/

theorem sanitizeChar_eq (c : Char) :
    sanitizeChar c = (if isWordChar c || c = '-' then c else '_') := by
  unfold sanitizeChar
  by_cases h : c = '_'
  · subst h
    decide
  · simp [h]

theorem deriveFilename_amended_eq (zone_url zone_text : String) :
    deriveFilename zone_url zone_text = deriveFilenameAmended zone_url zone_text := by
  have hsan : safeText zone_text
      = ⟨(zone_text.data.map (fun c => if isWordChar c || c = '-' then c else '_')).take 50⟩ := by
    unfold safeText
    congr 2
    exact List.map_congr_left (fun c _ => sanitizeChar_eq c)
  unfold deriveFilename deriveFilenameAmended
  rw [← hsan]
  by_cases h1 : pyBasename (urlPath zone_url) = "" <;>
    by_cases h2 : pyEndsWith (pyBasename (urlPath zone_url)) ".zip" <;>
      by_cases h3 : safeText zone_text = "" <;>
        simp [h1, h2, h3]

/-- Counterexample to C2 as stated: the hyphen is a non-word character, so
the claim's derivation for zone text `a-b` (with a non-zip URL basename)
yields `a_b.zip`, but the code's character class `[^\w\-_]` keeps hyphens
and yields `a-b.zip`. -/
theorem deriveFilename_cex :
    deriveFilename "https://h/dl" "a-b" = "a-b.zip" ∧
    deriveFilenameClaim "https://h/dl" "a-b" = "a_b.zip" ∧
    deriveFilename "https://h/dl" "a-b" ≠ deriveFilenameClaim "https://h/dl" "a-b" := by
  refine ⟨by decide, by decide, by decide⟩

/-- C2 (amended): the Downloader's filename is the URL path's basename when
that is nonempty and ends in `.zip`; otherwise the zone text with every
character that is *neither a word character nor a hyphen* replaced by `_`,
truncated to 50 characters and suffixed `.zip`; and the fixed name
`zone_file.zip` when the sanitized text is empty. -/
theorem deriveFilename_spec (zone_url zone_text : String) :
    deriveFilename zone_url zone_text = deriveFilenameAmended zone_url zone_text :=
  deriveFilename_amended_eq zone_url zone_text

/-! ## C4: the Extractor -/

theorem extract_loop (zip_files : List String) (outcome : String → ZipOutcome)
    (members : String → List String) (extract_dir : String)
    (acc : List String × List (String × String)) :
    zip_files.foldl (extractStep outcome members extract_dir) acc
      = (acc.1 ++ (zip_files.filter (fun f => outcome f == .ok)).map (fun _ => extract_dir),
         acc.2 ++ (zip_files.filter (fun f => outcome f == .ok)).flatMap
           (fun f => (members f).map (fun m => (extract_dir, m)))) := by
  induction zip_files generalizing acc with
  | nil => simp
  | cons f t ih =>
    rw [List.foldl_cons]
    cases hof : outcome f <;>
      simp [extractStep, hof, ih, List.filter_cons]

/-- C4: the Extractor is total over its inputs (every missing, corrupt or
otherwise failing file is skipped, never escalated): the returned list is
one copy of the extraction directory per successfully extracted file, its
length never exceeds the number of input files and is strictly smaller as
soon as some input fails, and every member of a successfully extracted
archive is written under the extraction directory. -/
theorem extract_zip_files_spec (zip_files : List String) (outcome : String → ZipOutcome)
    (members : String → List String) (extract_dir : String) :
    (extract_zip_files zip_files outcome members extract_dir).1
      = (zip_files.filter (fun f => outcome f == .ok)).map (fun _ => extract_dir) ∧
    (extract_zip_files zip_files outcome members extract_dir).1.length
      ≤ zip_files.length ∧
    ((∃ f ∈ zip_files, outcome f ≠ .ok) →
      (extract_zip_files zip_files outcome members extract_dir).1.length
        < zip_files.length) ∧
    (∀ f ∈ zip_files, outcome f = .ok → ∀ m ∈ members f,
      (extract_dir, m) ∈ (extract_zip_files zip_files outcome members extract_dir).2) := by
  have h := extract_loop zip_files outcome members extract_dir ([], [])
  unfold extract_zip_files
  rw [h]
  simp only [List.nil_append]
  refine ⟨trivial, ?_, ?_, ?_⟩
  · rw [List.length_map]
    exact List.length_filter_le _ _
  · rintro ⟨f, hf, hfo⟩
    rw [List.length_map]
    have hsplit := List.length_eq_length_filter_add
      (l := zip_files) (fun f => outcome f == ZipOutcome.ok)
    have hmem : f ∈ zip_files.filter (fun f => !(outcome f == ZipOutcome.ok)) := by
      rw [List.mem_filter]
      exact ⟨hf, by simp [hfo]⟩
    have hpos : 0 < (zip_files.filter (fun f => !(outcome f == ZipOutcome.ok))).length :=
      List.length_pos.mpr (List.ne_nil_of_mem hmem)
    omega
  · intro f hf hfo m hm
    rw [List.mem_flatMap]
    refine ⟨f, ?_, ?_⟩
    · rw [List.mem_filter]
      exact ⟨hf, by simp [hfo]⟩
    · rw [List.mem_map]
      exact ⟨m, hm, rfl⟩

/-- Outcome oracle for the C4 witness: one valid archive, one corrupt. -/
def exZipOutcome : String → ZipOutcome :=
  fun f => if f = "good.zip" then .ok else .badZip

/-- Member oracle for the C4 witness. -/
def exZipMembers : String → List String :=
  fun f => if f = "good.zip" then ["x.txt"] else []

/-- Witness for C4: with one valid and one corrupt archive, fewer entries
come back than files went in, and the valid archive's member appears under
the target directory. -/
theorem extract_zip_files_spec_witness :
    (extract_zip_files ["good.zip", "bad.zip"] exZipOutcome exZipMembers "out").1.length < 2 ∧
    ("out", "x.txt") ∈ (extract_zip_files ["good.zip", "bad.zip"] exZipOutcome exZipMembers "out").2 :=
  ⟨(extract_zip_files_spec ["good.zip", "bad.zip"] exZipOutcome exZipMembers "out").2.2.1
      ⟨"bad.zip", by decide, by decide⟩,
   (extract_zip_files_spec ["good.zip", "bad.zip"] exZipOutcome exZipMembers "out").2.2.2
      "good.zip" (by decide) (by decide) "x.txt" (by decide)⟩

/-! ## C3: collision-free filenames in the Downloader -/

theorem collCand_inj (stem : List Char) : Function.Injective (collCand stem) := by
  intro a b h
  have h' : stem ++ '_' :: (natReprL a ++ ".zip".data)
      = stem ++ '_' :: (natReprL b ++ ".zip".data) := congrArg String.data h
  have h2 := List.append_cancel_left h'
  injection h2 with _ h3
  exact natReprL_injective (List.append_cancel_right h3)

theorem exists_fresh_cand (existing : List String) (stem : List Char) :
    ∃ j, 1 ≤ j ∧ j ≤ 1 + existing.length ∧ collCand stem j ∉ existing := by
  by_contra hall
  push_neg at hall
  have hsub : ∀ x ∈ (List.range' 1 (existing.length + 1)).map (collCand stem),
      x ∈ existing := by
    intro x hx
    rw [List.mem_map] at hx
    obtain ⟨j, hj, rfl⟩ := hx
    rw [List.mem_range'_1] at hj
    exact hall j hj.1 (by omega)
  have hnd : ((List.range' 1 (existing.length + 1)).map (collCand stem)).Nodup :=
    (List.nodup_range' 1 (existing.length + 1)).map (collCand_inj stem)
  have hc1 : ((List.range' 1 (existing.length + 1)).map (collCand stem)).toFinset.card
      = existing.length + 1 := by
    rw [List.toFinset_card_of_nodup hnd]
    simp
  have hc2 : ((List.range' 1 (existing.length + 1)).map (collCand stem)).toFinset
      ⊆ existing.toFinset := by
    intro x hx
    rw [List.mem_toFinset] at hx ⊢
    exact hsub x hx
  have := Finset.card_le_card hc2
  have := List.toFinset_card_le existing
  omega

theorem findFresh_not_mem (existing : List String) (stem : List Char) :
    ∀ fuel k, (∃ j, k ≤ j ∧ j ≤ k + fuel ∧ collCand stem j ∉ existing) →
      findFresh existing stem fuel k ∉ existing := by
  intro fuel
  induction fuel with
  | zero =>
    rintro k ⟨j, hj1, hj2, hj3⟩
    have hjk : j = k := by omega
    subst hjk
    simpa [findFresh] using hj3
  | succ n ih =>
    rintro k ⟨j, hj1, hj2, hj3⟩
    unfold findFresh
    by_cases hc : collCand stem k ∈ existing
    · rw [if_pos hc]
      apply ih
      refine ⟨j, ?_, by omega, hj3⟩
      rcases Nat.lt_or_ge k j with hlt | hge
      · omega
      · have hjk : j = k := by omega
        subst hjk
        exact (hj3 hc).elim
    · rw [if_neg hc]
      exact hc

theorem resolveCollision_fresh (existing : List String) (filename : String) :
    resolveCollision existing filename ∉ existing := by
  unfold resolveCollision
  by_cases h : filename ∈ existing
  · rw [if_pos h]
    apply findFresh_not_mem
    obtain ⟨j, h1, h2, h3⟩ := exists_fresh_cand existing (pyStem filename).data
    exact ⟨j, h1, by omega, h3⟩
  · rw [if_neg h]
    exact h

/-- The loop invariant of the download loop over a directory that started
with contents `existing0`: the directory never holds duplicate names, the
returned list never does either, every returned path is in the directory,
the initial contents are still there, and no returned path collides with an
initial one. -/
def DlInv (existing0 : List String) (st : DlState) : Prop :=
  st.existing.Nodup ∧ st.downloaded.Nodup ∧
  (∀ f ∈ st.downloaded, f ∈ st.existing) ∧
  (∀ f ∈ existing0, f ∈ st.existing) ∧
  (∀ f ∈ st.downloaded, f ∉ existing0)

theorem dlStep_inv (outcome : ZoneEntry → DlOutcome) (existing0 : List String)
    (st : DlState) (z : ZoneEntry) (h : DlInv existing0 st) :
    DlInv existing0 (dlStep outcome st z) := by
  obtain ⟨h1, h2, h3, h4, h5⟩ := h
  have hfresh : resolveCollision st.existing (deriveFilename z.zone_url z.zone_text)
      ∉ st.existing := resolveCollision_fresh _ _
  unfold dlStep
  set fp := resolveCollision st.existing (deriveFilename z.zone_url z.zone_text) with hfp
  have hexn : (st.existing ++ [fp]).Nodup := by
    rw [List.nodup_append]
    refine ⟨h1, List.nodup_singleton fp, ?_⟩
    intro a ha hb
    rw [List.mem_singleton] at hb
    subst hb
    exact hfresh ha
  have hmemex : ∀ f ∈ st.downloaded, f ∈ st.existing ++ [fp] :=
    fun f hf => List.mem_append_left _ (h3 f hf)
  have hmem0 : ∀ f ∈ existing0, f ∈ st.existing ++ [fp] :=
    fun f hf => List.mem_append_left _ (h4 f hf)
  have hfp0 : fp ∉ existing0 := fun hc => hfresh (h4 fp hc)
  cases outcome z with
  | failStatus => exact ⟨h1, h2, h3, h4, h5⟩
  | failMid => exact ⟨hexn, h2, hmemex, hmem0, h5⟩
  | ok =>
    refine ⟨hexn, ?_, ?_, hmem0, ?_⟩
    · rw [List.nodup_append]
      refine ⟨h2, List.nodup_singleton fp, ?_⟩
      intro a ha hb
      rw [List.mem_singleton] at hb
      subst hb
      exact hfresh (h3 fp ha)
    · intro f hf
      rcases List.mem_append.mp hf with hf' | hf'
      · exact hmemex f hf'
      · exact List.mem_append_right _ hf'
    · intro f hf
      rcases List.mem_append.mp hf with hf' | hf'
      · exact h5 f hf'
      · rw [List.mem_singleton] at hf'
        subst hf'
        exact hfp0

theorem dl_loop_inv (outcome : ZoneEntry → DlOutcome) (existing0 : List String)
    (zones : List ZoneEntry) :
    ∀ st, DlInv existing0 st → DlInv existing0 (zones.foldl (dlStep outcome) st) := by
  induction zones with
  | nil => exact fun st h => h
  | cons z t ih =>
    intro st h
    rw [List.foldl_cons]
    exact ih _ (dlStep_inv outcome existing0 st z h)

/-- C3: for any sequence of zone entries and any per-entry download
outcome, a download directory with no duplicate names keeps that property —
no existing file is overwritten, the successfully downloaded paths are
pairwise distinct and all new — and on two entries that both derive
`report.zip` into an empty directory the files written are `report.zip`
and `report_1.zip`, both present afterwards. -/
theorem download_zone_files_spec :
    (∀ (zones : List ZoneEntry) (outcome : ZoneEntry → DlOutcome)
        (existing0 : List String), existing0.Nodup →
      (download_zone_files zones outcome existing0).existing.Nodup ∧
      (download_zone_files zones outcome existing0).downloaded.Nodup ∧
      ∀ f ∈ (download_zone_files zones outcome existing0).downloaded, f ∉ existing0) ∧
    download_zone_files
      [⟨"k", "kt", "https://h/a/report.zip", "r1"⟩,
       ⟨"k", "kt", "https://h/b/report.zip", "r2"⟩]
      (fun _ => .ok) []
      = ⟨["report.zip", "report_1.zip"], ["report.zip", "report_1.zip"]⟩ := by
  constructor
  · intro zones outcome existing0 h0
    have hinit : DlInv existing0 ⟨existing0, []⟩ := by
      refine ⟨h0, List.nodup_nil, ?_, ?_, ?_⟩
      · intro f hf
        cases hf
      · exact fun f hf => hf
      · intro f hf
        cases hf
    have h := dl_loop_inv outcome existing0 zones ⟨existing0, []⟩ hinit
    exact ⟨h.1, h.2.1, h.2.2.2.2⟩
  · decide

/-- Witness for C3: with `report.zip` already on disk, downloading an entry
that derives the same name leaves the directory duplicate-free and the new
path distinct from the pre-existing file. -/
theorem download_zone_files_spec_witness :
    (download_zone_files [⟨"k", "kt", "https://h/a/report.zip", "r1"⟩]
        (fun _ => .ok) ["report.zip"]).existing.Nodup ∧
    ∀ f ∈ (download_zone_files [⟨"k", "kt", "https://h/a/report.zip", "r1"⟩]
        (fun _ => .ok) ["report.zip"]).downloaded, f ∉ ["report.zip"] := by
  have h := download_zone_files_spec.1 [⟨"k", "kt", "https://h/a/report.zip", "r1"⟩]
    (fun _ => .ok) ["report.zip"] (by decide)
  exact ⟨h.1, h.2.2⟩

/-! ## C8 and C10: the Cookie Loader -/

/-- Does a JSON value qualify as a browser-export cookie record: an object
carrying both a `name` and a `value` field, the name hashable (not an array
or object)? -/
def isCookieObj : Json → Bool
  | .obj m =>
    hasKey m "name" && hasKey m "value" &&
      (match getKey m "name" with | .arr _ => false | .obj _ => false | _ => true)
  | _ => false

/-- The `(name, value)` pair a cookie record contributes. -/
def itemNameValue : Json → Json × Json
  | .obj m => (getKey m "name", getKey m "value")
  | _ => (.null, .null)

theorem cookieOfItem_eq (c : Json) (h : isCookieObj c = true) :
    cookieOfItem c = .ok (some (itemNameValue c)) := by
  cases c with
  | null => exact Bool.noConfusion h
  | bool b => exact Bool.noConfusion h
  | num n => exact Bool.noConfusion h
  | str s => exact Bool.noConfusion h
  | arr l => exact Bool.noConfusion h
  | obj m =>
    unfold isCookieObj at h
    rw [Bool.and_eq_true, Bool.and_eq_true] at h
    obtain ⟨⟨hn, hv⟩, hm⟩ := h
    cases hg : getKey m "name" <;> rw [hg] at hm
    case arr => exact Bool.noConfusion hm
    case obj => exact Bool.noConfusion hm
    all_goals simp [cookieOfItem, itemNameValue, hn, hv, hg]

theorem cookie_fold_eq (l : List Json) :
    ∀ acc, (∀ c ∈ l, isCookieObj c = true) →
      (l.foldlM (fun cookies c =>
        match cookieOfItem c with
        | .error e => .error e
        | .ok none => .ok cookies
        | .ok (some (k, v)) => .ok (dictInsert cookies k v)) acc : Except Unit _)
      = .ok (l.foldl (fun m c =>
          dictInsert m (itemNameValue c).1 (itemNameValue c).2) acc) := by
  induction l with
  | nil => intro acc _; rfl
  | cons c t ih =>
    intro acc hall
    have hc := cookieOfItem_eq c (hall c (List.mem_cons_self c t))
    rw [List.foldlM_cons, hc]
    show (t.foldlM _ (dictInsert acc (itemNameValue c).1 (itemNameValue c).2)
      : Except Unit _) = _
    rw [ih _ (fun x hx => hall x (List.mem_cons_of_mem c hx))]
    rfl

/-- The specification's browser-export example, with an extra `domain`
field on the first record. -/
def exampleCookieArr : Json := .arr
  [.obj [("name", .str "a"), ("value", .str "1"), ("domain", .str "x.com")],
   .obj [("name", .str "b"), ("value", .str "2")]]

/-- C8: on the example array (extra fields and all) the loader returns the
mapping `a ↦ 1, b ↦ 2`; a flat object is returned as the mapping itself;
and for every array of objects carrying `name` and `value` fields the
result is exactly the name/value pairs accumulated with dict-assignment
semantics, all other fields ignored. -/
theorem load_json_cookies_spec :
    load_json_cookies exampleCookieArr
      = .ok [(.str "a", .str "1"), (.str "b", .str "2")] ∧
    (∀ m : List (String × Json),
      load_json_cookies (.obj m) = .ok (m.map (fun p => (Json.str p.1, p.2)))) ∧
    (∀ l : List Json, (∀ c ∈ l, isCookieObj c = true) →
      load_json_cookies (.arr l) = .ok (cookieMapOf (l.map itemNameValue))) := by
  refine ⟨by rfl, fun m => rfl, ?_⟩
  intro l h
  have h2 : (Except.ok (l.foldl (fun m c =>
      dictInsert m (itemNameValue c).1 (itemNameValue c).2) []) : Except Unit _)
      = .ok (cookieMapOf (l.map itemNameValue)) := by
    unfold cookieMapOf
    rw [List.foldl_map]
  exact (cookie_fold_eq l [] h).trans h2

/-- Witness for C8: the array branch applied to a one-record array. -/
theorem load_json_cookies_spec_witness :
    load_json_cookies (.arr [.obj [("name", .str "n1"), ("value", .str "v1")]])
      = .ok (cookieMapOf
          ([Json.obj [("name", .str "n1"), ("value", .str "v1")]].map itemNameValue)) :=
  load_json_cookies_spec.2.2 [.obj [("name", .str "n1"), ("value", .str "v1")]]
    (by decide)

/-- C10: a `.json` cookie file whose valid JSON content is neither an array
nor an object makes the loader return the empty mapping without raising, so
the run proceeds with zero cookies. -/
theorem load_cookies_json_other_spec :
    ∀ (path : String) (j : Json) (ns : Except Unit (List (Json × Json)))
      (kv : List (Json × Json)),
      strLower (pySuffix path) = ".json" →
      (∀ l, j ≠ .arr l) → (∀ m, j ≠ .obj m) →
      load_cookies path (some j) ns kv = .ok [] := by
  intro path j ns kv hs ha ho
  unfold load_cookies
  rw [hs, if_pos rfl]
  cases j with
  | arr l => exact absurd rfl (ha l)
  | obj m => exact absurd rfl (ho m)
  | null => rfl
  | bool b => rfl
  | num n => rfl
  | str s => rfl

/-- Witness for C10: `cookies.json` containing the bare string `"oops"`. -/
theorem load_cookies_json_other_spec_witness :
    load_cookies "cookies.json" (some (.str "oops")) (.ok []) [] = .ok [] :=
  load_cookies_json_other_spec "cookies.json" (.str "oops") (.ok []) []
    (by rfl) (fun l h => Json.noConfusion h) (fun m h => Json.noConfusion h)

/-! ## C9: usage errors and the network -/

/-- A run supplying `--start-date ""`: an invalid (unparsable) bound. -/
def emptyDateArgs : Args :=
  { cookie_file := "cookies.json", output := none, verbose := false,
    url := "https://www.eminiplayer.net/archive.aspx", list_keys := true,
    list_zones := false, start_date := some "", end_date := none,
    download := none, extract := false }

/-- Counterexample to C9 as stated: the empty string is a supplied
start-date bound with no parseable date, yet `if args.start_date:` treats
it as absent — the run performs the root fetch and exits 0 instead of
failing before any network call. -/
theorem main_model_cex :
    parse_date_from_text "" = none ∧
    emptyDateArgs.start_date = some "" ∧
    main_model emptyDateArgs true (.ok []) true = ⟨0, 1, []⟩ := by
  refine ⟨by decide, rfl, by decide⟩

/-- C9 (amended): a run whose supplied start or end date is *non-empty* and
unparsable, or that passes `--extract` without `--download`, or
`--download` without `--list-zones`, exits with a non-zero status, writes
to standard error, and performs no network call. -/
theorem main_model_usage_spec :
    ∀ (args : Args) (cookieExists : Bool)
      (cookieLoad : Except Unit (List (Json × Json))) (rootFetchOk : Bool),
      ((∃ s, args.start_date = some s ∧ s ≠ "" ∧ parse_date_from_text s = none) ∨
       (∃ s, args.end_date = some s ∧ s ≠ "" ∧ parse_date_from_text s = none) ∨
       (args.extract = true ∧ args.download = none) ∨
       (args.download ≠ none ∧ args.list_zones = false)) →
      (main_model args cookieExists cookieLoad rootFetchOk).exitCode ≠ 0 ∧
      (main_model args cookieExists cookieLoad rootFetchOk).networkCalls = 0 ∧
      (main_model args cookieExists cookieLoad rootFetchOk).stderrLines ≠ [] := by
  intro args ce cl rf h
  unfold main_model
  by_cases c1 : (truthyStr args.start_date &&
      (parse_date_from_text (args.start_date.getD "")).isNone) = true
  · rw [if_pos c1]
    exact ⟨by simp, rfl, by simp⟩
  · rw [if_neg c1]
    by_cases c2 : (truthyStr args.end_date &&
        (parse_date_from_text (args.end_date.getD "")).isNone) = true
    · rw [if_pos c2]
      exact ⟨by simp, rfl, by simp⟩
    · rw [if_neg c2]
      by_cases c3 : args.extract = true ∧ args.download = none
      · rw [if_pos (by simp [c3.1, c3.2])]
        exact ⟨by simp, rfl, by simp⟩
      · rw [if_neg (by simpa using c3)]
        by_cases c4 : args.download ≠ none ∧ args.list_zones = false
        · rw [if_pos (by simp [c4.1, c4.2])]
          exact ⟨by simp, rfl, by simp⟩
        · exfalso
          rcases h with ⟨s, hs, hne, hp⟩ | ⟨s, hs, hne, hp⟩ | hc | hc
          · exact c1 (by simp [hs, truthyStr, hne, hp])
          · -- the end-date disjunct can only fail at c2 or earlier at c1;
            -- c1 false is given, so c2 must have been true
            exact c2 (by simp [hs, truthyStr, hne, hp])
          · exact c3 hc
          · exact c4 hc

/-- A run passing `--extract` without `--download`. -/
def badFlagArgs : Args :=
  { cookie_file := "cookies.json", output := none, verbose := false,
    url := "https://www.eminiplayer.net/archive.aspx", list_keys := false,
    list_zones := false, start_date := none, end_date := none,
    download := none, extract := true }

/-- Witness for C9 (amended): the `--extract`-without-`--download` run
exits non-zero with no network call and an error on standard error. -/
theorem main_model_usage_spec_witness :
    (main_model badFlagArgs true (.ok []) true).exitCode ≠ 0 ∧
    (main_model badFlagArgs true (.ok []) true).networkCalls = 0 ∧
    (main_model badFlagArgs true (.ok []) true).stderrLines ≠ [] :=
  main_model_usage_spec badFlagArgs true (.ok []) true
    (Or.inr (Or.inr (Or.inl ⟨rfl, rfl⟩)))

end ScrapeZones
